import Mathlib

/-!
Verification of the `uuid-collections` crate: a shallow embedding of the
entropy-extracting UUID hasher (`src/hasher.rs`) and of the UUID-keyed
container family (`src/lib.rs`, `src/like.rs`, `src/ext/rkyv.rs`).

Bytes are modelled as `Nat` values (a Rust `u8` is always `< 256`; bounds
appear as hypotheses where they matter).  A Rust `panic!` / failed
`assert!` is modelled as `none` in an `Option`-valued result.
-/

set_option autoImplicit false

/-- A UUID is modelled by its 16-byte buffer (`Uuid::as_bytes`), each byte a `Nat`. -/
abbrev Uuid : Type := List Nat

/-- Big-endian assembly of a byte list into an unsigned integer, as performed by
`u64::from_be_bytes` on the 8-byte buffer built in `UuidHasher::write`. -/
def u64FromBeBytes (l : List Nat) : Nat :=
  l.foldl (fun acc b => acc * 256 + b) 0

/-- State of `UuidHasher` (src/hasher.rs lines 14-17): a single `u64` hash field. -/
structure UuidHasher where
  hash : Nat
deriving DecidableEq

/-- Model of `UuidBuildHasher::build_hasher` (src/hasher.rs lines 19-25) returns
`UuidHasher::default()`, whose derived `Default` sets `hash = 0`. -/
def UuidBuildHasher.build_hasher : UuidHasher := ⟨0⟩

namespace UuidHasher

/-- Model of `UuidHasher::finish` (src/hasher.rs lines 39-41): returns the stored hash. -/
def finish (h : UuidHasher) : Nat := h.hash

/-- Model of `UuidHasher::write` (src/hasher.rs lines 43-97).  The three `assert`s
(length 16, version nibble 4 or 7, variant bits `10`) are modelled as `none`
on failure; on success the hash becomes the big-endian value of bytes
`[7, 9, 10, 11, 12, 13, 14, 15]`. -/
def write (_h : UuidHasher) (bytes : List Nat) : Option UuidHasher :=
  if bytes.length = 16 then
    let version := (bytes.getD 6 0 &&& 0b11110000) >>> 4
    if version = 4 ∨ version = 7 then
      let variant := (bytes.getD 8 0 &&& 0b11000000) >>> 6
      if variant = 2 then
        some ⟨u64FromBeBytes [bytes.getD 7 0, bytes.getD 9 0, bytes.getD 10 0,
          bytes.getD 11 0, bytes.getD 12 0, bytes.getD 13 0, bytes.getD 14 0,
          bytes.getD 15 0]⟩
      else none
    else none
  else none

/-- Model of `UuidHasher::write_i8` (src/hasher.rs `not_suppported!` macro): unconditional panic. -/
def write_i8 (_h : UuidHasher) (_v : Int) : Option UuidHasher := none

/-- Model of `UuidHasher::write_i16`: unconditional panic. -/
def write_i16 (_h : UuidHasher) (_v : Int) : Option UuidHasher := none

/-- Model of `UuidHasher::write_i32`: unconditional panic. -/
def write_i32 (_h : UuidHasher) (_v : Int) : Option UuidHasher := none

/-- Model of `UuidHasher::write_i64`: unconditional panic. -/
def write_i64 (_h : UuidHasher) (_v : Int) : Option UuidHasher := none

/-- Model of `UuidHasher::write_i128`: unconditional panic. -/
def write_i128 (_h : UuidHasher) (_v : Int) : Option UuidHasher := none

/-- Model of `UuidHasher::write_isize`: unconditional panic. -/
def write_isize (_h : UuidHasher) (_v : Int) : Option UuidHasher := none

/-- Model of `UuidHasher::write_u8`: unconditional panic. -/
def write_u8 (_h : UuidHasher) (_v : Nat) : Option UuidHasher := none

/-- Model of `UuidHasher::write_u16`: unconditional panic. -/
def write_u16 (_h : UuidHasher) (_v : Nat) : Option UuidHasher := none

/-- Model of `UuidHasher::write_u32`: unconditional panic. -/
def write_u32 (_h : UuidHasher) (_v : Nat) : Option UuidHasher := none

/-- Model of `UuidHasher::write_u64`: unconditional panic. -/
def write_u64 (_h : UuidHasher) (_v : Nat) : Option UuidHasher := none

/-- Model of `UuidHasher::write_u128`: unconditional panic. -/
def write_u128 (_h : UuidHasher) (_v : Nat) : Option UuidHasher := none

/-- Model of `UuidHasher::write_usize`: unconditional panic. -/
def write_usize (_h : UuidHasher) (_v : Nat) : Option UuidHasher := none

end UuidHasher

/-- The version field of an identifier: high nibble of byte 6
(src/hasher.rs line 46). -/
def uuidVersion (id : Uuid) : Nat := (id.getD 6 0 &&& 0b11110000) >>> 4

/-- The variant field of an identifier: top two bits of byte 8
(src/hasher.rs line 49). -/
def uuidVariant (id : Uuid) : Nat := (id.getD 8 0 &&& 0b11000000) >>> 6

/-- A byte buffer is a supported identifier when it passes the three checks of
`UuidHasher::write`: length 16, version 4 or 7, variant bits `10`. -/
def SupportedUuid (id : Uuid) : Prop :=
  id.length = 16 ∧ (uuidVersion id = 4 ∨ uuidVersion id = 7) ∧ uuidVariant id = 2

instance (id : Uuid) : Decidable (SupportedUuid id) := by
  unfold SupportedUuid; infer_instance

/-- The eight bytes `[byte7, byte9, ..., byte15]` extracted by `UuidHasher::write`. -/
def hashBytes (id : Uuid) : List Nat :=
  [id.getD 7 0, id.getD 9 0, id.getD 10 0, id.getD 11 0, id.getD 12 0,
    id.getD 13 0, id.getD 14 0, id.getD 15 0]

/-- Hashing one identifier as the containers do: build a fresh hasher
(`UuidBuildHasher::build_hasher`), `write` the 16 bytes, `finish`. -/
def hashUuid (id : Uuid) : Option Nat :=
  (UuidBuildHasher.build_hasher.write id).map UuidHasher.finish

/-- A concrete UUIDv4-format byte buffer (version nibble 4, variant bits `10`). -/
def uuidExA : Uuid := [0, 0, 0, 0, 0, 0, 0x47, 8, 0x91, 10, 11, 12, 13, 14, 15, 16]

/-- A second concrete UUIDv4-format byte buffer, distinct from `uuidExA`. -/
def uuidExB : Uuid := [0, 0, 0, 0, 0, 0, 0x40, 0, 0x80, 0, 0, 0, 0, 0, 0, 2]

/-- A concrete UUIDv7-format byte buffer (version nibble 7, variant bits `10`). -/
def uuidExC : Uuid := [1, 2, 3, 4, 5, 6, 0x70, 0, 0x80, 0, 0, 0, 0, 0, 0, 3]

/-- A concrete version-1 byte buffer (unsupported format). -/
def uuidExBad : Uuid := [0, 0, 0, 0, 0, 0, 0x10, 0, 0x80, 0, 0, 0, 0, 0, 0, 0]

/-- Keys (first components) of an entry list. -/
def entryKeys {V : Type} (l : List (Uuid × V)) : List Uuid := l.map Prod.fst

/-- An entry list has no duplicate keys (invariant of every hash-map state). -/
def NodupKeys {V : Type} (l : List (Uuid × V)) : Prop := (entryKeys l).Nodup

instance {V : Type} [DecidableEq V] (l : List (Uuid × V)) : Decidable (NodupKeys l) := by
  unfold NodupKeys; infer_instance

/-- Modelled from the spec: insertion into the external map type
(`HashMap::insert` / `IndexMap::insert`, out of scope of src/): an existing
key keeps its place and only its value is updated, a fresh key is appended
at the end of the iteration order. -/
def insertEntries {V : Type} (l : List (Uuid × V)) (k : Uuid) (v : V) :
    List (Uuid × V) :=
  match l with
  | [] => [(k, v)]
  | (k0, v0) :: rest =>
    if k0 = k then (k0, v) :: rest else (k0, v0) :: insertEntries rest k v

/-- Modelled from the spec: lookup in the external map type
(`HashMap::get` / `IndexMap::get`): the value of the first entry with the
given key, absence as `none`. -/
def lookupEntries {V : Type} (l : List (Uuid × V)) (k : Uuid) : Option V :=
  match l with
  | [] => none
  | (k0, v0) :: rest => if k0 = k then some v0 else lookupEntries rest k

/-- Modelled from the spec: order-preserving removal in the external ordered
map type (`IndexMap::shift_remove`): the entry is removed and all entries
after it shift forward, preserving relative order. -/
def shiftRemoveEntries {V : Type} (l : List (Uuid × V)) (k : Uuid) :
    List (Uuid × V) :=
  match l with
  | [] => []
  | (k0, v0) :: rest =>
    if k0 = k then rest else (k0, v0) :: shiftRemoveEntries rest k

/-- Modelled from the spec: order-breaking removal in the external ordered
map type (`IndexMap::swap_remove`): the entry is swapped with the last one
and popped, so the last entry takes the removed entry's position. -/
def swapRemoveEntries {V : Type} (l : List (Uuid × V)) (k : Uuid) :
    List (Uuid × V) :=
  match l.findIdx? (fun e => e.1 = k), l.getLast? with
  | some i, some last => (l.set i last).dropLast
  | _, _ => l

/-- Modelled from the spec: the external hash-map capability instantiated at
`UuidBuildHasher` (the wrappers `UuidMap`/`UuidIndexMap` of src/lib.rs
delegate every operation to it via `Deref`).  The state is the entry list in
iteration order; every keyed operation first hashes the key with
`UuidHasher`, so a hasher panic (`none`) propagates to the operation. -/
structure UuidMap (V : Type) where
  entries : List (Uuid × V)
deriving DecidableEq

/-- Modelled from the spec: `UuidIndexMap` shares the map model; its
iteration order is meaningful (insertion order). -/
abbrev UuidIndexMap : Type → Type := UuidMap

/-- Modelled from the spec: the external hash-set capability instantiated at
`UuidBuildHasher` (the wrappers `UuidSet`/`UuidIndexSet` of src/lib.rs). -/
structure UuidSet where
  elems : List Uuid
deriving DecidableEq

/-- Modelled from the spec: `UuidIndexSet` shares the set model; its
iteration order is meaningful (insertion order). -/
abbrev UuidIndexSet : Type := UuidSet

namespace UuidMap

/-- Model of `UuidMap::new()`: the empty map. -/
def empty {V : Type} : UuidMap V := ⟨[]⟩

/-- Number of entries (`HashMap::len` / `IndexMap::len`). -/
def len {V : Type} (m : UuidMap V) : Nat := m.entries.length

/-- Map insertion: hashes the key (panic propagates as `none`), then updates
the entry list. -/
def insert {V : Type} (m : UuidMap V) (k : Uuid) (v : V) : Option (UuidMap V) :=
  (hashUuid k).map fun _ => ⟨insertEntries m.entries k v⟩

/-- Map lookup (`get`): hashes the key (panic propagates as `none`), then
returns the stored value or `none` for absence. -/
def get {V : Type} (m : UuidMap V) (k : Uuid) : Option (Option V) :=
  (hashUuid k).map fun _ => lookupEntries m.entries k

/-- Key-membership test (`contains_key`): hashes the key, then checks presence. -/
def contains_key {V : Type} (m : UuidMap V) (k : Uuid) : Option Bool :=
  (hashUuid k).map fun _ => (lookupEntries m.entries k).isSome

/-- Map removal (`HashMap::remove`): hashes the key, then drops the entry. -/
def remove {V : Type} (m : UuidMap V) (k : Uuid) : Option (UuidMap V) :=
  (hashUuid k).map fun _ => ⟨shiftRemoveEntries m.entries k⟩

/-- Ordered-map swap removal (`IndexMap::swap_remove`). -/
def swap_remove {V : Type} (m : UuidMap V) (k : Uuid) : Option (UuidMap V) :=
  (hashUuid k).map fun _ => ⟨swapRemoveEntries m.entries k⟩

/-- Ordered-map shift removal (`IndexMap::shift_remove`). -/
def shift_remove {V : Type} (m : UuidMap V) (k : Uuid) : Option (UuidMap V) :=
  (hashUuid k).map fun _ => ⟨shiftRemoveEntries m.entries k⟩

/-- Modelled from the spec: structural equality of maps (the derived
`PartialEq` of `UuidMap`/`UuidIndexMap` delegates to the external map
equality): equal lengths and every entry of the left map present in the
right map with an equal value — iteration order plays no role. -/
def mapEq {V : Type} [DecidableEq V] (m1 m2 : UuidMap V) : Bool :=
  decide (m1.entries.length = m2.entries.length) &&
    m1.entries.all fun e => decide (lookupEntries m2.entries e.1 = some e.2)

end UuidMap

/-- Modelled from the spec: order-preserving removal in the external ordered
set type (`IndexSet::shift_remove`): the element is removed and all elements
after it shift forward, preserving relative order. -/
def shiftRemoveElems (l : List Uuid) (k : Uuid) : List Uuid :=
  match l with
  | [] => []
  | x :: rest => if x = k then rest else x :: shiftRemoveElems rest k

/-- Modelled from the spec: order-breaking removal in the external ordered
set type (`IndexSet::swap_remove`): the element is swapped with the last one
and popped, so the last element takes the removed element's position. -/
def swapRemoveElems (l : List Uuid) (k : Uuid) : List Uuid :=
  match l.findIdx? (fun x => x = k), l.getLast? with
  | some i, some last => (l.set i last).dropLast
  | _, _ => l

namespace UuidSet

/-- Model of `UuidSet::new()`: the empty set. -/
def empty : UuidSet := ⟨[]⟩

/-- Number of elements (`HashSet::len` / `IndexSet::len`). -/
def len (s : UuidSet) : Nat := s.elems.length

/-- Set insertion: hashes the element, then appends it if fresh. -/
def insert (s : UuidSet) (k : Uuid) : Option UuidSet :=
  (hashUuid k).map fun _ => if k ∈ s.elems then s else ⟨s.elems ++ [k]⟩

/-- Membership test (`contains`): hashes the element, then checks presence. -/
def contains (s : UuidSet) (k : Uuid) : Option Bool :=
  (hashUuid k).map fun _ => decide (k ∈ s.elems)

/-- Set removal: hashes the element, then drops it preserving order. -/
def remove (s : UuidSet) (k : Uuid) : Option UuidSet :=
  (hashUuid k).map fun _ => ⟨s.elems.erase k⟩

/-- Ordered-set swap removal (`IndexSet::swap_remove`): hashes the element,
then swap-removes it. -/
def swap_remove (s : UuidSet) (k : Uuid) : Option UuidSet :=
  (hashUuid k).map fun _ => ⟨swapRemoveElems s.elems k⟩

/-- Ordered-set shift removal (`IndexSet::shift_remove`): hashes the element,
then shift-removes it. -/
def shift_remove (s : UuidSet) (k : Uuid) : Option UuidSet :=
  (hashUuid k).map fun _ => ⟨shiftRemoveElems s.elems k⟩

/-- Modelled from the spec: structural equality of sets (the derived
`PartialEq` of `UuidSet`/`UuidIndexSet` delegates to the external set
equality): equal lengths and every element of the left set present in the
right set — iteration order plays no role. -/
def setEq (s1 s2 : UuidSet) : Bool :=
  decide (s1.elems.length = s2.elems.length) &&
    s1.elems.all fun k => decide (k ∈ s2.elems)

end UuidSet

/-- An archived map (`ArchivedUuidMap`, src/ext/rkyv.rs lines 20-26),
modelled by its list of archived entries in the archived table's iteration
order (the open-addressing table iterates in an order unrelated to the
source map's order). -/
structure ArchivedUuidMap (V : Type) where
  entries : List (Uuid × V)
deriving DecidableEq

/-- An archived set (`ArchivedUuidSet`, src/ext/rkyv.rs lines 28-34),
modelled by its element list in the archived table's iteration order. -/
structure ArchivedUuidSet where
  elems : List Uuid
deriving DecidableEq

/-- Model of `UuidMap::serialize` (src/ext/rkyv.rs lines 126-144): archives the
entries produced by `self.iter()`; modelled as the entry list in iteration
order. -/
def UuidMap.serialize {V : Type} (m : UuidMap V) : ArchivedUuidMap V :=
  ⟨m.entries⟩

/-- Model of `UuidSet::serialize` (src/ext/rkyv.rs lines 146-160). -/
def UuidSet.serialize (s : UuidSet) : ArchivedUuidSet :=
  ⟨s.elems⟩

/-- Model of `ArchivedUuidMap::deserialize` (src/ext/rkyv.rs lines 198-214): starts
from a fresh map and re-inserts every archived entry; a hasher panic during
`insert` propagates. -/
def ArchivedUuidMap.deserialize {V : Type} (a : ArchivedUuidMap V) :
    Option (UuidMap V) :=
  a.entries.foldlM (fun acc e => acc.insert e.1 e.2) UuidMap.empty

/-- Model of `ArchivedUuidSet::deserialize` (src/ext/rkyv.rs lines 216-229). -/
def ArchivedUuidSet.deserialize (a : ArchivedUuidSet) : Option UuidSet :=
  a.elems.foldlM (fun acc k => acc.insert k) UuidSet.empty

/-- Model of `ArchivedUuidMap::eq` (src/ext/rkyv.rs lines 269-281): entrywise equality
between an archived map and a live map — equal lengths and every archived
entry found in the live map with an equal value. -/
def ArchivedUuidMap.entryEq {V : Type} [DecidableEq V] (a : ArchivedUuidMap V)
    (m : UuidMap V) : Bool :=
  decide (a.entries.length = m.entries.length) &&
    a.entries.all fun e => decide (lookupEntries m.entries e.1 = some e.2)

/-- Model of `ArchivedUuidSet::eq` (src/ext/rkyv.rs lines 283-291). -/
def ArchivedUuidSet.entryEq (a : ArchivedUuidSet) (s : UuidSet) : Bool :=
  decide (a.elems.length = s.elems.length) &&
    a.elems.all fun k => decide (k ∈ s.elems)

theorem write_eq_some_of_supported (h : UuidHasher) (id : Uuid)
    (hs : SupportedUuid id) : h.write id = some ⟨u64FromBeBytes (hashBytes id)⟩ := by
  obtain ⟨h1, h2, h3⟩ := hs
  simp only [UuidHasher.write, uuidVersion, uuidVariant, hashBytes] at *
  rw [if_pos h1, if_pos h2, if_pos h3]

theorem write_eq_none_of_not_supported (h : UuidHasher) (id : Uuid)
    (hs : ¬ SupportedUuid id) : h.write id = none := by
  unfold UuidHasher.write
  dsimp only
  split
  case isTrue h1 =>
    split
    case isTrue h2 =>
      split
      case isTrue h3 =>
        exact absurd (⟨h1, h2, h3⟩ : SupportedUuid id) hs
      case isFalse h3 => rfl
    case isFalse h2 => rfl
  case isFalse h1 => rfl

theorem hashUuid_eq_some_of_supported (id : Uuid) (hs : SupportedUuid id) :
    hashUuid id = some (u64FromBeBytes (hashBytes id)) := by
  rw [hashUuid, write_eq_some_of_supported _ _ hs]; rfl

theorem hashUuid_eq_none_of_not_supported (id : Uuid) (hs : ¬ SupportedUuid id) :
    hashUuid id = none := by
  rw [hashUuid, write_eq_none_of_not_supported _ _ hs]; rfl

theorem lookupEntries_eq_some_of_mem {V : Type} (l : List (Uuid × V)) (k : Uuid)
    (v : V) (hnd : NodupKeys l) (hm : (k, v) ∈ l) : lookupEntries l k = some v := by
  induction l with
  | nil => cases hm
  | cons e rest ih =>
    obtain ⟨k0, v0⟩ := e
    simp only [NodupKeys, entryKeys, List.map_cons, List.nodup_cons] at hnd
    rcases List.mem_cons.mp hm with he | ht
    · obtain ⟨rfl, rfl⟩ := Prod.mk.injEq .. ▸ he
      simp [lookupEntries]
    · have hk : k0 ≠ k := by
        rintro rfl
        exact hnd.1 (List.mem_map.mpr ⟨(k0, v), ht, rfl⟩)
      simp only [lookupEntries, if_neg hk]
      exact ih hnd.2 ht

theorem mem_of_lookupEntries_eq_some {V : Type} (l : List (Uuid × V)) (k : Uuid)
    (v : V) (hl : lookupEntries l k = some v) : (k, v) ∈ l := by
  induction l with
  | nil => cases hl
  | cons e rest ih =>
    obtain ⟨k0, v0⟩ := e
    simp only [lookupEntries] at hl
    by_cases hk : k0 = k
    · rw [if_pos hk] at hl
      subst hk
      obtain rfl := Option.some.injEq .. ▸ hl
      exact List.mem_cons_self _ _
    · rw [if_neg hk] at hl
      exact List.mem_cons_of_mem _ (ih hl)

theorem lookupEntries_eq_none_iff {V : Type} (l : List (Uuid × V)) (k : Uuid) :
    lookupEntries l k = none ↔ k ∉ entryKeys l := by
  induction l with
  | nil => simp [lookupEntries, entryKeys]
  | cons e rest ih =>
    obtain ⟨k0, v0⟩ := e
    simp only [lookupEntries, entryKeys, List.map_cons, List.mem_cons]
    by_cases hk : k0 = k
    · subst hk
      simp
    · rw [if_neg hk]
      simp only [entryKeys] at ih
      rw [ih]
      constructor
      · rintro hni (h1 | h2)
        · exact hk h1.symm
        · exact hni h2
      · intro hni h2
        exact hni (Or.inr h2)

theorem insertEntries_of_not_mem {V : Type} (l : List (Uuid × V)) (k : Uuid)
    (v : V) (hk : k ∉ entryKeys l) : insertEntries l k v = l ++ [(k, v)] := by
  induction l with
  | nil => rfl
  | cons e rest ih =>
    obtain ⟨k0, v0⟩ := e
    simp only [entryKeys, List.map_cons, List.mem_cons] at hk
    push_neg at hk
    have hne : k0 ≠ k := fun h => hk.1 h.symm
    simp only [insertEntries, if_neg hne, List.cons_append]
    rw [ih hk.2]

theorem entryKeys_insertEntries_of_mem {V : Type} (l : List (Uuid × V)) (k : Uuid)
    (v : V) (hk : k ∈ entryKeys l) : entryKeys (insertEntries l k v) = entryKeys l := by
  induction l with
  | nil => cases hk
  | cons e rest ih =>
    obtain ⟨k0, v0⟩ := e
    simp only [entryKeys, List.map_cons, List.mem_cons] at hk
    by_cases h0 : k0 = k
    · simp [insertEntries, if_pos h0, entryKeys]
    · rcases hk with h1 | h2
      · exact absurd h1.symm h0
      · simp only [insertEntries, if_neg h0, entryKeys, List.map_cons]
        simp only [entryKeys] at ih
        rw [ih h2]

theorem entryKeys_append {V : Type} (l1 l2 : List (Uuid × V)) :
    entryKeys (l1 ++ l2) = entryKeys l1 ++ entryKeys l2 := by
  simp [entryKeys]

theorem mem_entryKeys_iff {V : Type} (l : List (Uuid × V)) (k : Uuid) :
    k ∈ entryKeys l ↔ ∃ v, (k, v) ∈ l := by
  simp only [entryKeys, List.mem_map]
  constructor
  · rintro ⟨⟨k0, v0⟩, hm, rfl⟩
    exact ⟨v0, hm⟩
  · rintro ⟨v, hm⟩
    exact ⟨(k, v), hm, rfl⟩

theorem nodupKeys_of_perm {V : Type} (l1 l2 : List (Uuid × V)) (hp : l1.Perm l2)
    (hnd : NodupKeys l1) : NodupKeys l2 :=
  ((hp.map Prod.fst).nodup_iff).mp hnd

theorem lookupEntries_eq_of_perm {V : Type} (l1 l2 : List (Uuid × V))
    (hp : l1.Perm l2) (hnd : NodupKeys l1) (k : Uuid) :
    lookupEntries l1 k = lookupEntries l2 k := by
  have hnd2 : NodupKeys l2 := nodupKeys_of_perm l1 l2 hp hnd
  cases hl : lookupEntries l1 k with
  | some v =>
    exact (lookupEntries_eq_some_of_mem l2 k v hnd2
      (hp.mem_iff.mp (mem_of_lookupEntries_eq_some l1 k v hl))).symm
  | none =>
    have hk : k ∉ entryKeys l2 := by
      intro hm
      exact ((lookupEntries_eq_none_iff l1 k).mp hl)
        (((hp.map Prod.fst).mem_iff).mpr hm)
    exact ((lookupEntries_eq_none_iff l2 k).mpr hk).symm

theorem listMapEq_iff {V : Type} [DecidableEq V] (m1 m2 : List (Uuid × V))
    (h1 : NodupKeys m1) (h2 : NodupKeys m2) :
    (decide (m1.length = m2.length) &&
      m1.all fun e => decide (lookupEntries m2 e.1 = some e.2)) = true ↔
    ∀ k, lookupEntries m1 k = lookupEntries m2 k := by
  rw [Bool.and_eq_true, decide_eq_true_iff, List.all_eq_true]
  constructor
  · rintro ⟨hlen, hall⟩ k
    have hsub : entryKeys m1 ⊆ entryKeys m2 := by
      intro x hx
      obtain ⟨v, hv⟩ := (mem_entryKeys_iff m1 x).mp hx
      have := decide_eq_true_iff.mp (hall (x, v) hv)
      exact (mem_entryKeys_iff m2 x).mpr
        ⟨v, mem_of_lookupEntries_eq_some m2 x v this⟩
    have hfin : (entryKeys m1).toFinset = (entryKeys m2).toFinset := by
      apply Finset.eq_of_subset_of_card_le
      · intro x hx
        exact List.mem_toFinset.mpr (hsub (List.mem_toFinset.mp hx))
      · rw [List.toFinset_card_of_nodup h1, List.toFinset_card_of_nodup h2]
        simp only [entryKeys, List.length_map]
        omega
    cases hl : lookupEntries m1 k with
    | some v =>
      exact (decide_eq_true_iff.mp
        (hall (k, v) (mem_of_lookupEntries_eq_some m1 k v hl))).symm
    | none =>
      have hk1 : k ∉ entryKeys m1 := (lookupEntries_eq_none_iff m1 k).mp hl
      have hk2 : k ∉ entryKeys m2 := by
        intro hm
        exact hk1 (List.mem_toFinset.mp (hfin ▸ List.mem_toFinset.mpr hm))
      exact ((lookupEntries_eq_none_iff m2 k).mpr hk2).symm
  · intro hk
    have hmem : ∀ x, x ∈ entryKeys m1 ↔ x ∈ entryKeys m2 := by
      intro x
      constructor
      · intro hx
        obtain ⟨v, hv⟩ := (mem_entryKeys_iff m1 x).mp hx
        have := lookupEntries_eq_some_of_mem m1 x v h1 hv
        exact (mem_entryKeys_iff m2 x).mpr
          ⟨v, mem_of_lookupEntries_eq_some m2 x v ((hk x).symm.trans this)⟩
      · intro hx
        obtain ⟨v, hv⟩ := (mem_entryKeys_iff m2 x).mp hx
        have := lookupEntries_eq_some_of_mem m2 x v h2 hv
        exact (mem_entryKeys_iff m1 x).mpr
          ⟨v, mem_of_lookupEntries_eq_some m1 x v ((hk x).trans this)⟩
    constructor
    · have hfin : (entryKeys m1).toFinset = (entryKeys m2).toFinset := by
        apply Finset.ext
        intro x
        rw [List.mem_toFinset, List.mem_toFinset]
        exact hmem x
      have hc1 := List.toFinset_card_of_nodup h1
      have hc2 := List.toFinset_card_of_nodup h2
      rw [hfin] at hc1
      simp only [entryKeys, List.length_map] at hc1 hc2
      omega
    · intro e he
      exact decide_eq_true_iff.mpr
        ((hk e.1).symm.trans (lookupEntries_eq_some_of_mem m1 e.1 e.2 h1 he))

theorem listSetEq_iff (s1 s2 : List Uuid) (h1 : s1.Nodup) (h2 : s2.Nodup) :
    (decide (s1.length = s2.length) && s1.all fun k => decide (k ∈ s2)) = true ↔
    ∀ k, k ∈ s1 ↔ k ∈ s2 := by
  rw [Bool.and_eq_true, decide_eq_true_iff, List.all_eq_true]
  constructor
  · rintro ⟨hlen, hall⟩ k
    have hsub : s1 ⊆ s2 := fun x hx => decide_eq_true_iff.mp (hall x hx)
    have hfin : s1.toFinset = s2.toFinset := by
      apply Finset.eq_of_subset_of_card_le
      · intro x hx
        exact List.mem_toFinset.mpr (hsub (List.mem_toFinset.mp hx))
      · rw [List.toFinset_card_of_nodup h1, List.toFinset_card_of_nodup h2]
        omega
    constructor
    · exact fun hx => hsub hx
    · intro hx
      exact List.mem_toFinset.mp (hfin ▸ List.mem_toFinset.mpr hx)
  · intro hk
    constructor
    · have hfin : s1.toFinset = s2.toFinset := by
        apply Finset.ext
        intro x
        rw [List.mem_toFinset, List.mem_toFinset]
        exact hk x
      have hc1 := List.toFinset_card_of_nodup h1
      have hc2 := List.toFinset_card_of_nodup h2
      rw [hfin] at hc1
      omega
    · intro x hx
      exact decide_eq_true_iff.mpr ((hk x).mp hx)

theorem filter_ne_eq_self {V : Type} (l : List (Uuid × V)) (k : Uuid)
    (h : k ∉ entryKeys l) : (l.filter fun e => decide (e.1 ≠ k)) = l := by
  apply List.filter_eq_self.mpr
  intro e he
  apply decide_eq_true_iff.mpr
  intro hek
  exact h (show k ∈ entryKeys l from List.mem_map.mpr ⟨e, he, hek⟩)

theorem shiftRemoveEntries_eq_filter {V : Type} (l : List (Uuid × V)) (k : Uuid)
    (hnd : NodupKeys l) :
    shiftRemoveEntries l k = l.filter fun e => decide (e.1 ≠ k) := by
  induction l with
  | nil => rfl
  | cons e rest ih =>
    obtain ⟨k0, v0⟩ := e
    simp only [NodupKeys, entryKeys, List.map_cons, List.nodup_cons] at hnd
    by_cases hk : k0 = k
    · subst hk
      rw [List.filter_cons_of_neg (by simp)]
      simp only [shiftRemoveEntries, if_pos rfl]
      exact (filter_ne_eq_self rest k0 hnd.1).symm
    · rw [List.filter_cons_of_pos (by simp [hk])]
      simp only [shiftRemoveEntries, if_neg hk]
      rw [ih hnd.2]

theorem filter_ne_eq_self_elems (l : List Uuid) (k : Uuid) (h : k ∉ l) :
    (l.filter fun x => decide (x ≠ k)) = l := by
  apply List.filter_eq_self.mpr
  intro x hx
  apply decide_eq_true_iff.mpr
  intro hxk
  exact h (hxk ▸ hx)

theorem shiftRemoveElems_eq_filter (l : List Uuid) (k : Uuid) (hnd : l.Nodup) :
    shiftRemoveElems l k = l.filter fun x => decide (x ≠ k) := by
  induction l with
  | nil => rfl
  | cons x rest ih =>
    rw [List.nodup_cons] at hnd
    by_cases hk : x = k
    · subst hk
      rw [List.filter_cons_of_neg (by simp)]
      simp only [shiftRemoveElems, if_pos rfl]
      exact (filter_ne_eq_self_elems rest x hnd.1).symm
    · rw [List.filter_cons_of_pos (by simp [hk])]
      simp only [shiftRemoveElems, if_neg hk]
      rw [ih hnd.2]

theorem foldlM_map_insert_eq {V : Type} (l : List (Uuid × V)) (m0 : UuidMap V)
    (hnd : (entryKeys m0.entries ++ entryKeys l).Nodup)
    (hsup : ∀ e ∈ l, SupportedUuid e.1) :
    l.foldlM (fun acc e => acc.insert e.1 e.2) m0 = some ⟨m0.entries ++ l⟩ := by
  induction l generalizing m0 with
  | nil =>
    cases m0
    simp [List.foldlM]
  | cons e rest ih =>
    obtain ⟨k, v⟩ := e
    simp only [entryKeys, List.map_cons] at hnd
    have hnotin : k ∉ entryKeys m0.entries := by
      rcases List.nodup_append.mp hnd with ⟨_, _, hdisj⟩
      intro hm
      exact hdisj hm (List.mem_cons_self _ _)
    have hins : m0.insert k v = some ⟨m0.entries ++ [(k, v)]⟩ := by
      rw [UuidMap.insert, hashUuid_eq_some_of_supported k (hsup _ (List.mem_cons_self _ _))]
      simp [insertEntries_of_not_mem m0.entries k v hnotin]
    simp only [List.foldlM_cons, hins, Option.bind_eq_bind, Option.some_bind]
    rw [ih ⟨m0.entries ++ [(k, v)]⟩]
    · simp
    · rw [entryKeys_append]
      simpa [entryKeys, List.append_assoc] using hnd
    · exact fun e he => hsup e (List.mem_cons_of_mem _ he)

theorem foldlM_set_insert_eq (l : List Uuid) (s0 : UuidSet)
    (hnd : (s0.elems ++ l).Nodup) (hsup : ∀ k ∈ l, SupportedUuid k) :
    l.foldlM (fun acc k => acc.insert k) s0 = some ⟨s0.elems ++ l⟩ := by
  induction l generalizing s0 with
  | nil =>
    cases s0
    simp [List.foldlM]
  | cons k rest ih =>
    have hnotin : k ∉ s0.elems := by
      rcases List.nodup_append.mp hnd with ⟨_, _, hdisj⟩
      intro hm
      exact hdisj hm (List.mem_cons_self _ _)
    have hins : s0.insert k = some ⟨s0.elems ++ [k]⟩ := by
      rw [UuidSet.insert, hashUuid_eq_some_of_supported k (hsup _ (List.mem_cons_self _ _))]
      simp [if_neg hnotin]
    simp only [List.foldlM_cons, hins, Option.bind_eq_bind, Option.some_bind]
    rw [ih ⟨s0.elems ++ [k]⟩]
    · simp
    · simpa [List.append_assoc] using hnd
    · exact fun x hx => hsup x (List.mem_cons_of_mem _ hx)


/-- Claim C1: for every 16-byte input whose byte 6 high nibble is 4 or 7 and whose
byte 8 top two bits are binary `10`, `UuidHasher::write` followed by `finish`
produces the 64-bit value obtained by assembling the buffer
`[byte7, byte9, byte10, byte11, byte12, byte13, byte14, byte15]` big-endian;
the result does not depend on the hasher state, so repeated computation on the
same 16 bytes yields the same 64-bit value. -/
theorem write_then_finish_assembles_random_bytes (h1 h2 : UuidHasher)
    (bytes : List Nat) (hlen : bytes.length = 16)
    (hver : uuidVersion bytes = 4 ∨ uuidVersion bytes = 7)
    (hvar : uuidVariant bytes = 2) :
    (h1.write bytes).map UuidHasher.finish =
      some (u64FromBeBytes (hashBytes bytes)) ∧
    (h1.write bytes).map UuidHasher.finish =
      (h2.write bytes).map UuidHasher.finish := by
  have hs : SupportedUuid bytes := ⟨hlen, hver, hvar⟩
  rw [write_eq_some_of_supported h1 bytes hs, write_eq_some_of_supported h2 bytes hs]
  exact ⟨rfl, rfl⟩

/-- Witness for C1 at a concrete UUIDv4 buffer and two distinct hasher states. -/
theorem write_then_finish_assembles_random_bytes_witness :
    ((UuidHasher.mk 0).write uuidExA).map UuidHasher.finish =
      some (u64FromBeBytes (hashBytes uuidExA)) ∧
    ((UuidHasher.mk 0).write uuidExA).map UuidHasher.finish =
      ((UuidHasher.mk 99).write uuidExA).map UuidHasher.finish :=
  write_then_finish_assembles_random_bytes ⟨0⟩ ⟨99⟩ uuidExA (by decide) (by decide)
    (by decide)

/-- Claim C2: `UuidHasher::write` panics exactly when the slice length is not 16, or
the version nibble is neither 4 nor 7, or the variant bits are not binary `10`;
on every input passing all three checks it completes without panicking. -/
theorem write_panics_iff_malformed (h : UuidHasher) (bytes : List Nat) :
    h.write bytes = none ↔
      bytes.length ≠ 16 ∨ (uuidVersion bytes ≠ 4 ∧ uuidVersion bytes ≠ 7) ∨
        uuidVariant bytes ≠ 2 := by
  have hiff : (bytes.length ≠ 16 ∨ (uuidVersion bytes ≠ 4 ∧ uuidVersion bytes ≠ 7) ∨
      uuidVariant bytes ≠ 2) ↔ ¬ SupportedUuid bytes := by
    unfold SupportedUuid
    tauto
  rw [hiff]
  constructor
  · intro hn hs
    rw [write_eq_some_of_supported h bytes hs] at hn
    cases hn
  · exact write_eq_none_of_not_supported h bytes

/-- Claim C9: every typed-primitive incremental write method of `UuidHasher` panics
unconditionally, for every input value; only the byte-slice `write` is
supported. -/
theorem typed_incremental_writes_always_panic (h : UuidHasher) (n : Nat) (i : Int) :
    h.write_u8 n = none ∧ h.write_u16 n = none ∧ h.write_u32 n = none ∧
    h.write_u64 n = none ∧ h.write_u128 n = none ∧ h.write_usize n = none ∧
    h.write_i8 i = none ∧ h.write_i16 i = none ∧ h.write_i32 i = none ∧
    h.write_i64 i = none ∧ h.write_i128 i = none ∧ h.write_isize i = none :=
  ⟨rfl, rfl, rfl, rfl, rfl, rfl, rfl, rfl, rfl, rfl, rfl, rfl⟩

/-- Claim C10: the hasher's state is exactly the most recent valid write's value,
initialized to 0: a fresh hasher finishes to 0, a first valid 16-byte write is
accepted, a second valid write on the same hasher is accepted without panic and
silently replaces the stored hash with the second identifier's value, giving
the same result as a write on a fresh hasher (last write wins). -/
theorem hasher_state_last_write_wins (bytes1 bytes2 : List Nat)
    (hs1 : SupportedUuid bytes1) (hs2 : SupportedUuid bytes2) :
    UuidBuildHasher.build_hasher.finish = 0 ∧
    UuidBuildHasher.build_hasher.write bytes1 =
      some ⟨u64FromBeBytes (hashBytes bytes1)⟩ ∧
    (UuidHasher.mk (u64FromBeBytes (hashBytes bytes1))).write bytes2 =
      some ⟨u64FromBeBytes (hashBytes bytes2)⟩ ∧
    (UuidHasher.mk (u64FromBeBytes (hashBytes bytes1))).write bytes2 =
      UuidBuildHasher.build_hasher.write bytes2 := by
  refine ⟨rfl, write_eq_some_of_supported _ _ hs1,
    write_eq_some_of_supported _ _ hs2, ?_⟩
  rw [write_eq_some_of_supported _ _ hs2, write_eq_some_of_supported _ _ hs2]

/-- Witness for C10 at a concrete UUIDv4 then UUIDv7 buffer. -/
theorem hasher_state_last_write_wins_witness :
    UuidBuildHasher.build_hasher.finish = 0 ∧
    UuidBuildHasher.build_hasher.write uuidExA =
      some ⟨u64FromBeBytes (hashBytes uuidExA)⟩ ∧
    (UuidHasher.mk (u64FromBeBytes (hashBytes uuidExA))).write uuidExC =
      some ⟨u64FromBeBytes (hashBytes uuidExC)⟩ ∧
    (UuidHasher.mk (u64FromBeBytes (hashBytes uuidExA))).write uuidExC =
      UuidBuildHasher.build_hasher.write uuidExC :=
  hasher_state_last_write_wins uuidExA uuidExC (by decide) (by decide)

theorem getD_lt_of_byte_list (l : List Nat) (i : Nat) (hi : i < l.length)
    (hb : ∀ x ∈ l, x < 256) : l.getD i 0 < 256 := by
  have hm : l.getD i 0 ∈ l := by
    rw [List.getD_eq_getElem l 0 hi]
    exact List.getElem_mem hi
  exact hb _ hm

/-- Claim C8: for two supported-format 16-byte identifiers, equality of the 64-bit
hash values forces byte 7 and bytes 9 through 15 to coincide: a collision can
occur only when those 7 bytes are identical. -/
theorem collision_implies_random_bytes_equal (a b : Uuid)
    (hba : ∀ x ∈ a, x < 256) (hbb : ∀ x ∈ b, x < 256)
    (hsa : SupportedUuid a) (hsb : SupportedUuid b)
    (hcol : hashUuid a = hashUuid b) :
    a.getD 7 0 = b.getD 7 0 ∧ a.getD 9 0 = b.getD 9 0 ∧
    a.getD 10 0 = b.getD 10 0 ∧ a.getD 11 0 = b.getD 11 0 ∧
    a.getD 12 0 = b.getD 12 0 ∧ a.getD 13 0 = b.getD 13 0 ∧
    a.getD 14 0 = b.getD 14 0 ∧ a.getD 15 0 = b.getD 15 0 := by
  rw [hashUuid_eq_some_of_supported a hsa, hashUuid_eq_some_of_supported b hsb] at hcol
  have heq : u64FromBeBytes (hashBytes a) = u64FromBeBytes (hashBytes b) :=
    Option.some_injective _ hcol
  have hla : a.length = 16 := hsa.1
  have hlb : b.length = 16 := hsb.1
  have ha7 := getD_lt_of_byte_list a 7 (by omega) hba
  have ha9 := getD_lt_of_byte_list a 9 (by omega) hba
  have ha10 := getD_lt_of_byte_list a 10 (by omega) hba
  have ha11 := getD_lt_of_byte_list a 11 (by omega) hba
  have ha12 := getD_lt_of_byte_list a 12 (by omega) hba
  have ha13 := getD_lt_of_byte_list a 13 (by omega) hba
  have ha14 := getD_lt_of_byte_list a 14 (by omega) hba
  have ha15 := getD_lt_of_byte_list a 15 (by omega) hba
  have hb7 := getD_lt_of_byte_list b 7 (by omega) hbb
  have hb9 := getD_lt_of_byte_list b 9 (by omega) hbb
  have hb10 := getD_lt_of_byte_list b 10 (by omega) hbb
  have hb11 := getD_lt_of_byte_list b 11 (by omega) hbb
  have hb12 := getD_lt_of_byte_list b 12 (by omega) hbb
  have hb13 := getD_lt_of_byte_list b 13 (by omega) hbb
  have hb14 := getD_lt_of_byte_list b 14 (by omega) hbb
  have hb15 := getD_lt_of_byte_list b 15 (by omega) hbb
  simp only [u64FromBeBytes, hashBytes, List.foldl] at heq
  omega

/-- Witness for C8: both identifiers equal to a concrete UUIDv4 buffer. -/
theorem collision_implies_random_bytes_equal_witness :
    uuidExA.getD 7 0 = uuidExA.getD 7 0 ∧ uuidExA.getD 9 0 = uuidExA.getD 9 0 ∧
    uuidExA.getD 10 0 = uuidExA.getD 10 0 ∧ uuidExA.getD 11 0 = uuidExA.getD 11 0 ∧
    uuidExA.getD 12 0 = uuidExA.getD 12 0 ∧ uuidExA.getD 13 0 = uuidExA.getD 13 0 ∧
    uuidExA.getD 14 0 = uuidExA.getD 14 0 ∧ uuidExA.getD 15 0 = uuidExA.getD 15 0 :=
  collision_implies_random_bytes_equal uuidExA uuidExA (by decide) (by decide)
    (by decide) (by decide) rfl

/-- Claim C5: every container operation — map insert, get, contains, removal in every
variant, set insert, contains, removal — with an identifier whose version field
is neither 4 nor 7 is a fatal contract violation (panic), never a silent
acceptance or a recoverable error. -/
theorem container_ops_panic_on_unsupported_version (V : Type) (m : UuidMap V)
    (s : UuidSet) (id : Uuid) (v : V)
    (hver : uuidVersion id ≠ 4 ∧ uuidVersion id ≠ 7) :
    m.insert id v = none ∧ m.get id = none ∧ m.contains_key id = none ∧
    m.remove id = none ∧ m.swap_remove id = none ∧ m.shift_remove id = none ∧
    s.insert id = none ∧ s.contains id = none ∧ s.remove id = none := by
  have hns : ¬ SupportedUuid id := by
    rintro ⟨-, h2, -⟩
    rcases h2 with h | h
    · exact hver.1 h
    · exact hver.2 h
  have h0 : hashUuid id = none := hashUuid_eq_none_of_not_supported id hns
  refine ⟨?_, ?_, ?_, ?_, ?_, ?_, ?_, ?_, ?_⟩ <;>
    simp [UuidMap.insert, UuidMap.get, UuidMap.contains_key, UuidMap.remove,
      UuidMap.swap_remove, UuidMap.shift_remove, UuidSet.insert,
      UuidSet.contains, UuidSet.remove, h0]

/-- Witness for C5 at a version-1 identifier against concrete containers. -/
theorem container_ops_panic_on_unsupported_version_witness :
    UuidMap.insert (UuidMap.empty : UuidMap Nat) uuidExBad 0 = none ∧
    UuidMap.get (UuidMap.empty : UuidMap Nat) uuidExBad = none ∧
    UuidMap.contains_key (UuidMap.empty : UuidMap Nat) uuidExBad = none ∧
    UuidMap.remove (UuidMap.empty : UuidMap Nat) uuidExBad = none ∧
    UuidMap.swap_remove (UuidMap.empty : UuidMap Nat) uuidExBad = none ∧
    UuidMap.shift_remove (UuidMap.empty : UuidMap Nat) uuidExBad = none ∧
    UuidSet.insert UuidSet.empty uuidExBad = none ∧
    UuidSet.contains UuidSet.empty uuidExBad = none ∧
    UuidSet.remove UuidSet.empty uuidExBad = none :=
  container_ops_panic_on_unsupported_version Nat UuidMap.empty UuidSet.empty
    uuidExBad 0 (by decide)

/-- Claim C6: for supported-format identifiers `a ≠ b` and any values, inserting
`(a, va)` then `(b, vb)` into an empty map succeeds, looking up `a` returns
`va`, and looking up a third distinct supported-format identifier returns
clean absence (`none`) rather than an error or panic. -/
theorem insert_insert_lookup_no_cross_contamination (V : Type) (a b c : Uuid)
    (va vb : V) (hsa : SupportedUuid a) (hsb : SupportedUuid b)
    (hsc : SupportedUuid c) (hab : a ≠ b) (hca : c ≠ a) (hcb : c ≠ b) :
    UuidMap.empty.insert a va = some ⟨[(a, va)]⟩ ∧
    (UuidMap.mk [(a, va)]).insert b vb = some ⟨[(a, va), (b, vb)]⟩ ∧
    (UuidMap.mk [(a, va), (b, vb)]).get a = some (some va) ∧
    (UuidMap.mk [(a, va), (b, vb)]).get c = some none := by
  have ha := hashUuid_eq_some_of_supported a hsa
  have hb := hashUuid_eq_some_of_supported b hsb
  have hc := hashUuid_eq_some_of_supported c hsc
  refine ⟨?_, ?_, ?_, ?_⟩
  · rw [UuidMap.insert, ha]
    rfl
  · rw [UuidMap.insert, hb]
    simp only [Option.map_some, Option.some.injEq, UuidMap.mk.injEq]
    simp [insertEntries, if_neg hab]
  · rw [UuidMap.get, ha]
    simp [lookupEntries]
  · rw [UuidMap.get, hc]
    simp [lookupEntries, if_neg (Ne.symm hca), if_neg (Ne.symm hcb)]

/-- Witness for C6 at three concrete distinct supported identifiers. -/
theorem insert_insert_lookup_no_cross_contamination_witness :
    UuidMap.empty.insert uuidExA 1 = some ⟨[(uuidExA, 1)]⟩ ∧
    (UuidMap.mk [(uuidExA, 1)]).insert uuidExB 2 =
      some ⟨[(uuidExA, 1), (uuidExB, 2)]⟩ ∧
    (UuidMap.mk [(uuidExA, 1), (uuidExB, 2)]).get uuidExA = some (some 1) ∧
    (UuidMap.mk [(uuidExA, 1), (uuidExB, 2)]).get uuidExC = some none :=
  insert_insert_lookup_no_cross_contamination Nat uuidExA uuidExB uuidExC 1 2
    (by decide) (by decide) (by decide) (by decide) (by decide) (by decide)

/-- Claim C3: for containers of the same shape (the ordered variants share the
model), the equality test holds iff the two containers contain the same set of
keys — with equal values per key for maps — so insertion order plays no role
in equality for any shape. -/
theorem structural_equality_ignores_order (V : Type) [DecidableEq V]
    (m1 m2 : UuidMap V) (s1 s2 : UuidSet)
    (hm1 : NodupKeys m1.entries) (hm2 : NodupKeys m2.entries)
    (hs1 : s1.elems.Nodup) (hs2 : s2.elems.Nodup) :
    (UuidMap.mapEq m1 m2 = true ↔
      ∀ k, lookupEntries m1.entries k = lookupEntries m2.entries k) ∧
    (UuidSet.setEq s1 s2 = true ↔ ∀ k, k ∈ s1.elems ↔ k ∈ s2.elems) :=
  ⟨listMapEq_iff m1.entries m2.entries hm1 hm2,
    listSetEq_iff s1.elems s2.elems hs1 hs2⟩

/-- Witness for C3 at concrete two-entry containers listed in opposite orders. -/
theorem structural_equality_ignores_order_witness :
    (UuidMap.mapEq ⟨[(uuidExA, 1), (uuidExB, 2)]⟩ ⟨[(uuidExB, 2), (uuidExA, 1)]⟩ = true ↔
      ∀ k, lookupEntries [(uuidExA, 1), (uuidExB, 2)] k =
        lookupEntries [(uuidExB, 2), (uuidExA, 1)] k) ∧
    (UuidSet.setEq ⟨[uuidExA, uuidExC]⟩ ⟨[uuidExC, uuidExA]⟩ = true ↔
      ∀ k, k ∈ [uuidExA, uuidExC] ↔ k ∈ [uuidExC, uuidExA]) :=
  structural_equality_ignores_order Nat ⟨[(uuidExA, 1), (uuidExB, 2)]⟩
    ⟨[(uuidExB, 2), (uuidExA, 1)]⟩ ⟨[uuidExA, uuidExC]⟩ ⟨[uuidExC, uuidExA]⟩
    (by decide) (by decide) (by decide) (by decide)

/-- Claim C4: for both ordered variants (the ordered map and the ordered set),
iteration order equals insertion order: a fresh key or element is appended at
the end, an overwritten key (or re-inserted element) keeps its prior position,
shift removal preserves the relative order of the remaining entries, and the
two removal semantics are distinct operations chosen per call — swap removal
moves the last entry into the removed slot, as the concrete three-entry map
and three-element set show. -/
theorem indexmap_iteration_order (V : Type) (m : UuidIndexMap V)
    (s : UuidIndexSet) (k : Uuid) (v : V) (hs : SupportedUuid k)
    (hnd : NodupKeys m.entries) (hnds : s.elems.Nodup) :
    (k ∉ entryKeys m.entries → m.insert k v = some ⟨m.entries ++ [(k, v)]⟩) ∧
    (k ∈ entryKeys m.entries →
      (m.insert k v).map (fun m2 => entryKeys m2.entries) =
        some (entryKeys m.entries)) ∧
    m.shift_remove k = some ⟨m.entries.filter fun e => decide (e.1 ≠ k)⟩ ∧
    (k ∉ s.elems → s.insert k = some ⟨s.elems ++ [k]⟩) ∧
    (k ∈ s.elems → s.insert k = some s) ∧
    s.shift_remove k = some ⟨s.elems.filter fun x => decide (x ≠ k)⟩ ∧
    (UuidMap.mk [(uuidExA, 1), (uuidExB, 2), (uuidExC, 3)]).swap_remove uuidExA =
      some ⟨[(uuidExC, 3), (uuidExB, 2)]⟩ ∧
    (UuidMap.mk [(uuidExA, 1), (uuidExB, 2), (uuidExC, 3)]).shift_remove uuidExA =
      some ⟨[(uuidExB, 2), (uuidExC, 3)]⟩ ∧
    (UuidSet.mk [uuidExA, uuidExB, uuidExC]).swap_remove uuidExA =
      some ⟨[uuidExC, uuidExB]⟩ ∧
    (UuidSet.mk [uuidExA, uuidExB, uuidExC]).shift_remove uuidExA =
      some ⟨[uuidExB, uuidExC]⟩ := by
  have hk := hashUuid_eq_some_of_supported k hs
  refine ⟨?_, ?_, ?_, ?_, ?_, ?_, by decide, by decide, by decide, by decide⟩
  · intro hnotin
    rw [UuidMap.insert, hk]
    simp [insertEntries_of_not_mem m.entries k v hnotin]
  · intro hin
    rw [UuidMap.insert, hk]
    simp [entryKeys_insertEntries_of_mem m.entries k v hin]
  · rw [UuidMap.shift_remove, hk]
    simp [shiftRemoveEntries_eq_filter m.entries k hnd]
  · intro hnotin
    rw [UuidSet.insert, hk]
    simp [if_neg hnotin]
  · intro hin
    rw [UuidSet.insert, hk]
    simp [if_pos hin]
  · rw [UuidSet.shift_remove, hk]
    simp [shiftRemoveElems_eq_filter s.elems k hnds]

/-- Witness for C4 at a concrete one-entry ordered map, a one-element ordered
set and a fresh key. -/
theorem indexmap_iteration_order_witness :
    (uuidExA ∉ entryKeys [(uuidExB, 5)] →
      (UuidMap.mk [(uuidExB, 5)]).insert uuidExA 7 =
        some ⟨[(uuidExB, 5), (uuidExA, 7)]⟩) ∧
    (uuidExA ∈ entryKeys [(uuidExB, 5)] →
      ((UuidMap.mk [(uuidExB, 5)]).insert uuidExA 7).map
        (fun m2 => entryKeys m2.entries) = some (entryKeys [(uuidExB, 5)])) ∧
    (UuidMap.mk [(uuidExB, 5)]).shift_remove uuidExA =
      some ⟨List.filter (fun e => decide (e.1 ≠ uuidExA)) [(uuidExB, 5)]⟩ ∧
    (uuidExA ∉ [uuidExB] →
      (UuidSet.mk [uuidExB]).insert uuidExA = some ⟨[uuidExB, uuidExA]⟩) ∧
    (uuidExA ∈ [uuidExB] →
      (UuidSet.mk [uuidExB]).insert uuidExA = some ⟨[uuidExB]⟩) ∧
    (UuidSet.mk [uuidExB]).shift_remove uuidExA =
      some ⟨List.filter (fun x => decide (x ≠ uuidExA)) [uuidExB]⟩ ∧
    (UuidMap.mk [(uuidExA, 1), (uuidExB, 2), (uuidExC, 3)]).swap_remove uuidExA =
      some ⟨[(uuidExC, 3), (uuidExB, 2)]⟩ ∧
    (UuidMap.mk [(uuidExA, 1), (uuidExB, 2), (uuidExC, 3)]).shift_remove uuidExA =
      some ⟨[(uuidExB, 2), (uuidExC, 3)]⟩ ∧
    (UuidSet.mk [uuidExA, uuidExB, uuidExC]).swap_remove uuidExA =
      some ⟨[uuidExC, uuidExB]⟩ ∧
    (UuidSet.mk [uuidExA, uuidExB, uuidExC]).shift_remove uuidExA =
      some ⟨[uuidExB, uuidExC]⟩ :=
  indexmap_iteration_order Nat ⟨[(uuidExB, 5)]⟩ ⟨[uuidExB]⟩ uuidExA 7
    (by decide) (by decide) (by decide)

/-- Claim C7: archival round-trip: decoding an archived container whose entry list is
any permutation of the serialized container's entries succeeds and yields a
container entrywise-equal to the original — the structural equality test
accepts the pair for both the map and the set shape — independent of the
archived iteration order. -/
theorem archival_roundtrip_entrywise_eq (V : Type) [DecidableEq V]
    (m : UuidMap V) (a : ArchivedUuidMap V) (s : UuidSet) (t : ArchivedUuidSet)
    (hpm : a.entries.Perm m.serialize.entries) (hnd : NodupKeys m.entries)
    (hsup : ∀ e ∈ m.entries, SupportedUuid e.1)
    (hps : t.elems.Perm s.serialize.elems) (hnds : s.elems.Nodup)
    (hsups : ∀ x ∈ s.elems, SupportedUuid x) :
    a.deserialize = some ⟨a.entries⟩ ∧
    UuidMap.mapEq m ⟨a.entries⟩ = true ∧
    t.deserialize = some ⟨t.elems⟩ ∧
    UuidSet.setEq s ⟨t.elems⟩ = true := by
  have hpm2 : a.entries.Perm m.entries := hpm
  have hps2 : t.elems.Perm s.elems := hps
  have hnda : NodupKeys a.entries := nodupKeys_of_perm m.entries a.entries hpm2.symm hnd
  have hsupa : ∀ e ∈ a.entries, SupportedUuid e.1 :=
    fun e he => hsup e (hpm2.mem_iff.mp he)
  have hndt : t.elems.Nodup := (hps2.nodup_iff).mpr hnds
  have hsupt : ∀ x ∈ t.elems, SupportedUuid x :=
    fun x hx => hsups x (hps2.mem_iff.mp hx)
  refine ⟨?_, ?_, ?_, ?_⟩
  · rw [ArchivedUuidMap.deserialize]
    rw [foldlM_map_insert_eq a.entries UuidMap.empty (by simpa [UuidMap.empty, entryKeys] using hnda) hsupa]
    simp [UuidMap.empty]
  · exact (listMapEq_iff m.entries a.entries hnd hnda).mpr
      (lookupEntries_eq_of_perm m.entries a.entries hpm2.symm hnd)
  · rw [ArchivedUuidSet.deserialize]
    rw [foldlM_set_insert_eq t.elems UuidSet.empty (by simpa [UuidSet.empty] using hndt) hsupt]
    simp [UuidSet.empty]
  · exact (listSetEq_iff s.elems t.elems hnds hndt).mpr
      (fun x => Iff.symm (List.Perm.mem_iff hps2))

/-- Witness for C7 at concrete two-entry containers archived in reversed order. -/
theorem archival_roundtrip_entrywise_eq_witness :
    ArchivedUuidMap.deserialize ⟨[(uuidExB, 2), (uuidExA, 1)]⟩ =
      some ⟨[(uuidExB, 2), (uuidExA, 1)]⟩ ∧
    UuidMap.mapEq ⟨[(uuidExA, 1), (uuidExB, 2)]⟩ ⟨[(uuidExB, 2), (uuidExA, 1)]⟩ = true ∧
    ArchivedUuidSet.deserialize ⟨[uuidExC, uuidExA]⟩ = some ⟨[uuidExC, uuidExA]⟩ ∧
    UuidSet.setEq ⟨[uuidExA, uuidExC]⟩ ⟨[uuidExC, uuidExA]⟩ = true :=
  archival_roundtrip_entrywise_eq Nat ⟨[(uuidExA, 1), (uuidExB, 2)]⟩
    ⟨[(uuidExB, 2), (uuidExA, 1)]⟩ ⟨[uuidExA, uuidExC]⟩ ⟨[uuidExC, uuidExA]⟩
    (by decide) (by decide) (by decide) (by decide) (by decide) (by decide)
